import Mathlib

/-!
# Verification of `modules/performance_module.c`

A shallow embedding of `run_benchmark` and of the demonstration `main`.

* C `int` is 32 bits wide, two's complement: every `int` operation of the
  source (`i * j`, `i++`, `j++`) is performed on `Int` and passed through
  `wrapInt`.
* `clock_t` and `CLOCKS_PER_SEC` come from `<time.h>`; they are fields of a
  `Platform` record.  The clock itself is an oracle `clk : Nat → Int`:
  `clk k` is what the `k`-th call of `clock()` of the process returns.
* `double` is modelled by exact rationals `ℚ`.
* The program state is threaded through every statement.  It holds the
  contents of standard output, the characters of the buffer `code_snippet`
  points to, the number of `clock()` calls made so far and an event trace.
  The locals `i`, `j`, `x` live in the arguments of the loop functions; every
  write to them is recorded in the trace.
-/

namespace PerformanceModule

/-! ## Machine arithmetic -/

/-- Wrap an integer into the range of a signed two's-complement type of
`bits` bits. -/
def wrapSigned (bits : Nat) (z : Int) : Int :=
  (z + 2 ^ (bits - 1)) % (2 * 2 ^ (bits - 1)) - 2 ^ (bits - 1)

/-- Wrap an integer into the range of an unsigned type of `bits` bits. -/
def wrapUnsigned (bits : Nat) (z : Int) : Int :=
  z % 2 ^ bits

/-- Wrap an integer into the range of C `int` (32 bits, signed). -/
def wrapInt (z : Int) : Int :=
  (z + 2147483648) % 4294967296 - 2147483648

/-! ## Platform (`<time.h>`) -/

/-- The parts of `<time.h>` the source uses: the representation of `clock_t`
and the constant `CLOCKS_PER_SEC`. -/
structure Platform where
  /-- Width of `clock_t` in bits. -/
  clockBits : Nat
  /-- Whether `clock_t` is a signed type. -/
  clockSigned : Bool
  /-- The constant `CLOCKS_PER_SEC`. -/
  CLOCKS_PER_SEC : Nat

/-- Subtraction `a - b` performed in `clock_t`. -/
def Platform.clockSub (P : Platform) (a b : Int) : Int :=
  if P.clockSigned then wrapSigned P.clockBits (a - b)
  else wrapUnsigned P.clockBits (a - b)

/-- The value `(clock_t)(-1)` that `clock()` returns on failure. -/
def Platform.clockFailure (P : Platform) : Int :=
  if P.clockSigned then -1 else 2 ^ P.clockBits - 1

/-- A platform with a 64-bit signed `clock_t` and a million ticks per second
(glibc on 64-bit Linux). -/
def glibc64 : Platform := ⟨64, true, 1000000⟩

/-! ## Program state and events -/

/-- What happens during execution, in program order. -/
inductive Event where
  /-- A call of `clock()` that returned `v`. -/
  | clock (v : Int)
  /-- The outer counter `i` was assigned `v` (`int i = 0` or `i++`). -/
  | setI (v : Int)
  /-- The inner counter `j` was assigned `v` (`int j = 0` or `j++`). -/
  | setJ (v : Int)
  /-- One execution of the innermost body with counters `i` and `j`:
  `int x = i * j; (void)x;` stored `x`. -/
  | body (i j x : Int)
  /-- A write of `s` to standard output. -/
  | write (s : List Char)
  deriving DecidableEq, Repr

/-- Program state. -/
structure State where
  /-- Everything written to standard output so far. -/
  stdout : List Char
  /-- The characters of the buffer the argument `code_snippet` points to. -/
  snippet : List Char
  /-- How many times `clock()` has been called so far. -/
  ticks : Nat
  /-- The events so far, oldest first. -/
  trace : List Event
  deriving DecidableEq, Repr

/-- Append an event to the trace. -/
def emit (e : Event) (σ : State) : State :=
  { σ with trace := σ.trace ++ [e] }

/-- The library function `clock()`: returns the next reading of the oracle. -/
def clock (clk : Nat → Int) (σ : State) : Int × State :=
  let v := clk σ.ticks
  (v, emit (Event.clock v) { σ with ticks := σ.ticks + 1 })

/-- The library function `printf` with an already formatted text. -/
def printf (s : List Char) (σ : State) : State :=
  emit (Event.write s) { σ with stdout := σ.stdout ++ s }

/-! ## The source functions -/

/-- The inner loop `for (int j = 0; j < 1000; j++) { int x = i * j; (void)x; }`
from the loop test onwards, with the current value of `j`. -/
def innerLoop (i j : Int) (σ : State) : State :=
  if j < 1000 then
    let x := wrapInt (i * j)
    let σ1 := emit (Event.body i j x) σ
    let j1 := wrapInt (j + 1)
    innerLoop i j1 (emit (Event.setJ j1) σ1)
  else σ
termination_by (1000 - j).toNat
decreasing_by
  simp only [wrapInt]
  omega

/-- The outer loop `for (int i = 0; i < 100000; i++) { ... }` from the loop
test onwards, with the current value of `i`. -/
def outerLoop (i : Int) (σ : State) : State :=
  if i < 100000 then
    let σ1 := emit (Event.setJ 0) σ
    let σ2 := innerLoop i 0 σ1
    let i1 := wrapInt (i + 1)
    outerLoop i1 (emit (Event.setI i1) σ2)
  else σ
termination_by (100000 - i).toNat
decreasing_by
  simp only [wrapInt]
  omega

/-- The function `double run_benchmark(const char *code_snippet)`.  The
argument is the state component `snippet`. -/
def run_benchmark (P : Platform) (clk : Nat → Int) (σ : State) : ℚ × State :=
  let (start_time, σ1) := clock clk σ
  let σ2 := emit (Event.setI 0) σ1
  let σ3 := outerLoop 0 σ2
  let (end_time, σ4) := clock clk σ3
  let elapsed_time : ℚ := (P.clockSub end_time start_time : ℚ) / (P.CLOCKS_PER_SEC : ℚ)
  (elapsed_time, σ4)

/-- The function `int main()` of the `TEST_MODULE` build.  `fmt` is the
conversion `%f` of `printf`. -/
def main (P : Platform) (fmt : ℚ → List Char) (clk : Nat → Int) (σ : State) : Int × State :=
  let σ1 := { σ with snippet := "dummy code for testing".toList }
  let (time_taken, σ2) := run_benchmark P clk σ1
  let σ3 := printf ("Execution time: ".toList ++ fmt time_taken ++ " seconds\n".toList) σ2
  (0, σ3)

/-- The events a call of `run_benchmark` adds to the trace. -/
def callTrace (P : Platform) (clk : Nat → Int) (σ : State) : List Event :=
  (run_benchmark P clk σ).2.trace.drop σ.trace.length

/-! ## Closed forms of the traces -/

/-- The events of one iteration of the inner loop, for given `i` and `j`,
written with exact (unwrapped) arithmetic: the body, then `j++`. -/
def innerStep (i : Int) (j : Nat) : List Event :=
  [Event.body i (j : Int) (i * (j : Int)), Event.setJ ((j : Int) + 1)]

/-- The events of one complete inner loop after `int j = 0`, for a given `i`. -/
def innerEvents (i : Int) : List Event :=
  (List.range 1000).flatMap (innerStep i)

/-- The events of one iteration of the outer loop, for a given `i`. -/
def outerEvents (i : Nat) : List Event :=
  Event.setJ 0 :: innerEvents (i : Int) ++ [Event.setI ((i : Int) + 1)]

/-- The events of the whole workload, from `int i = 0` to the exit of the
outer loop, written with exact arithmetic. -/
def workEvents : List Event :=
  Event.setI 0 :: (List.range 100000).flatMap outerEvents

/-- The iteration `(i, j, x)` an event stands for, if it is an execution of
the innermost body. -/
def Event.iteration? : Event → Option (Int × Int × Int)
  | Event.body i j x => some (i, j, x)
  | _ => none

/-- The value assigned to `i`, if the event is a write to `i`. -/
def Event.iValue? : Event → Option Int
  | Event.setI v => some v
  | _ => none

/-- The value assigned to `j`, if the event is a write to `j`. -/
def Event.jValue? : Event → Option Int
  | Event.setJ v => some v
  | _ => none

/-- Whether the event is a clock reading. -/
def Event.isClock : Event → Bool
  | Event.clock _ => true
  | _ => false

/-- Whether the event is an execution of the innermost body. -/
def Event.isBody : Event → Bool
  | Event.body _ _ _ => true
  | _ => false

/-- Whether the event is a write to standard output. -/
def Event.isWrite : Event → Bool
  | Event.write _ => true
  | _ => false

/-- Whether the event only touches the locals `i`, `j`, `x`. -/
def Event.isLocal : Event → Bool
  | Event.setI _ => true
  | Event.setJ _ => true
  | Event.body _ _ _ => true
  | _ => false

/-- The iterations `(i, j, x)` of the innermost body in a trace, in order. -/
def iterations (tr : List Event) : List (Int × Int × Int) :=
  tr.filterMap Event.iteration?

/-- The iterations of the nest `i = 0..99999`, `j = 0..999` with the exact
product, `i` outermost. -/
def expectedIterations : List (Int × Int × Int) :=
  (List.range 100000).flatMap
    (fun (i : Nat) => (List.range 1000).map
      (fun (j : Nat) => ((i : Int), (j : Int), (i : Int) * (j : Int))))

/-- The successive values of the outer counter `i` in a trace. -/
def iValues (tr : List Event) : List Int :=
  tr.filterMap Event.iValue?

/-- The successive values of the inner counter `j` in a trace. -/
def jValues (tr : List Event) : List Int :=
  tr.filterMap Event.jValue?

/-- The arithmetic of the event stays inside 32-bit `int` without wrapping:
the counters of a body execution are below their bounds and the stored
product is the exact one, at most `99999 * 999`; a counter is never assigned
more than its bound. -/
def Event.inRange : Event → Prop
  | Event.body i j x =>
      0 ≤ i ∧ i < 100000 ∧ 0 ≤ j ∧ j < 1000 ∧ x = i * j ∧ 0 ≤ i * j ∧
        i * j ≤ 99899001 ∧ i * j < 2 ^ 31
  | Event.setI v => 0 ≤ v ∧ v ≤ 100000 ∧ v < 2 ^ 31
  | Event.setJ v => 0 ≤ v ∧ v ≤ 1000 ∧ v < 2 ^ 31
  | _ => True

/-- The observable program state: standard output and the snippet buffer. -/
def observable (σ : State) : List Char × List Char :=
  (σ.stdout, σ.snippet)

/-! ## Sample inputs -/

/-- A fresh process: nothing written, empty snippet, clock never read. -/
def emptyState : State := ⟨[], [], 0, []⟩

/-- A clock that advances: 1000 ticks at the first reading, 251000 at the
second, and so on. -/
def sampleClock (k : Nat) : Int := 1000 + 250000 * (k : Int)

/-- A clock whose first reading is 5 ticks and which fails afterwards,
returning `(clock_t)(-1)`. -/
def failingClock (k : Nat) : Int := if k = 0 then 5 else -1

/-- A long snippet. -/
def longSnippet : List Char :=
  "int total = 0; while (total < 1000000) total = total + 3; return total % 7;".toList

/-- The state in which `main` calls `run_benchmark`: `code_snippet` points to
the literal. -/
def mainInput (σ : State) : State :=
  { σ with snippet := "dummy code for testing".toList }

/-- The text `main` passes to standard output: the format of its `printf`
filled with the value its call of `run_benchmark` returned. -/
def mainLine (P : Platform) (fmt : ℚ → List Char) (clk : Nat → Int) (σ : State) : List Char :=
  "Execution time: ".toList ++ fmt (run_benchmark P clk (mainInput σ)).1 ++ " seconds\n".toList

/-- A sample `%f` conversion on exact rationals: optional sign, integer part,
a point and six decimals, the magnitude rounded to the nearest millionth. -/
def fmtFixed6 (q : ℚ) : List Char :=
  let n : Nat := (2 * q.num.natAbs * 1000000 + q.den) / (2 * q.den)
  let frac := Nat.toDigits 10 (n % 1000000)
  (if q < 0 then ['-'] else []) ++ Nat.toDigits 10 (n / 1000000) ++ ['.'] ++
    List.replicate (6 - frac.length) '0' ++ frac

/-! ## The loops compute the closed forms -/

theorem wrapInt_of_range (z : Int) (h0 : -2147483648 ≤ z) (h1 : z < 2147483648) :
    wrapInt z = z := by
  unfold wrapInt
  omega

theorem innerLoop_eq (i : Int) (hi0 : 0 ≤ i) (hi1 : i < 100000) :
    ∀ (n k : Nat) (σ : State), k + n = 1000 →
      innerLoop i (k : Int) σ =
        { σ with trace := σ.trace ++ (List.range' k n).flatMap (innerStep i) } := by
  intro n
  induction n with
  | zero =>
    intro k σ hk
    have hk' : k = 1000 := by omega
    subst hk'
    unfold innerLoop
    simp
  | succ n ih =>
    intro k σ hk
    have hk1 : (k : Int) < 1000 := by omega
    have hk0 : (0 : Int) ≤ (k : Int) := by omega
    have hmul0 : 0 ≤ i * (k : Int) := mul_nonneg hi0 hk0
    have hmul1 : i * (k : Int) ≤ 100000 * 1000 :=
      mul_le_mul (by omega) (by omega) hk0 (by norm_num)
    have hx : wrapInt (i * (k : Int)) = i * (k : Int) :=
      wrapInt_of_range _ (by omega) (by omega)
    have hj : wrapInt ((k : Int) + 1) = ((k + 1 : Nat) : Int) := by
      rw [wrapInt_of_range _ (by omega) (by omega)]
      push_cast
      rfl
    rw [innerLoop, if_pos hk1]
    simp only [hx, hj]
    rw [ih (k + 1) _ (by omega)]
    simp [emit, List.range'_succ, innerStep]

theorem innerLoop_zero (i : Int) (hi0 : 0 ≤ i) (hi1 : i < 100000) (σ : State) :
    innerLoop i 0 σ = { σ with trace := σ.trace ++ innerEvents i } := by
  have h := innerLoop_eq i hi0 hi1 1000 0 σ rfl
  rw [← List.range_eq_range'] at h
  simpa [innerEvents] using h

theorem outerLoop_eq :
    ∀ (n k : Nat) (σ : State), k + n = 100000 →
      outerLoop (k : Int) σ =
        { σ with trace := σ.trace ++ (List.range' k n).flatMap outerEvents } := by
  intro n
  induction n with
  | zero =>
    intro k σ hk
    have hk' : k = 100000 := by omega
    subst hk'
    unfold outerLoop
    simp
  | succ n ih =>
    intro k σ hk
    have hk1 : (k : Int) < 100000 := by omega
    have hk0 : (0 : Int) ≤ (k : Int) := by omega
    have hi : wrapInt ((k : Int) + 1) = ((k + 1 : Nat) : Int) := by
      rw [wrapInt_of_range _ (by omega) (by omega)]
      push_cast
      rfl
    rw [outerLoop, if_pos hk1]
    simp only [hi]
    rw [innerLoop_zero _ hk0 hk1, ih (k + 1) _ (by omega)]
    simp [emit, List.range'_succ, outerEvents]

theorem outerLoop_zero (σ : State) :
    outerLoop 0 σ =
      { σ with trace := σ.trace ++ (List.range 100000).flatMap outerEvents } := by
  have h := outerLoop_eq 100000 0 σ rfl
  rw [← List.range_eq_range'] at h
  simpa using h

theorem run_benchmark_unfold (P : Platform) (clk : Nat → Int) (σ : State) :
    run_benchmark P clk σ =
      (((P.clockSub (clk (outerLoop 0 (emit (Event.setI 0) (clock clk σ).2)).ticks)
            (clk σ.ticks) : Int) : ℚ) / (P.CLOCKS_PER_SEC : ℚ),
        (clock clk (outerLoop 0 (emit (Event.setI 0) (clock clk σ).2))).2) := by
  rfl

/-- Complete description of a call of `run_benchmark`: the value returned and
the state it leaves. -/
theorem run_benchmark_eq (P : Platform) (clk : Nat → Int) (σ : State) :
    run_benchmark P clk σ =
      (((P.clockSub (clk (σ.ticks + 1)) (clk σ.ticks) : Int) : ℚ) / (P.CLOCKS_PER_SEC : ℚ),
        { stdout := σ.stdout, snippet := σ.snippet, ticks := σ.ticks + 2,
          trace := σ.trace ++
            (Event.clock (clk σ.ticks) :: workEvents ++ [Event.clock (clk (σ.ticks + 1))]) }) := by
  rw [run_benchmark_unfold, outerLoop_zero]
  simp only [clock, emit, workEvents, List.append_assoc,
    List.cons_append, List.nil_append, List.singleton_append]

theorem callTrace_eq (P : Platform) (clk : Nat → Int) (σ : State) :
    callTrace P clk σ =
      Event.clock (clk σ.ticks) :: workEvents ++ [Event.clock (clk (σ.ticks + 1))] := by
  simp [callTrace, run_benchmark_eq]

/-! ## Facts about the closed forms -/

theorem iterations_inner (i : Int) (l : List Nat) :
    (l.flatMap (innerStep i)).filterMap Event.iteration? =
      l.map (fun (j : Nat) => (i, (j : Int), i * (j : Int))) := by
  induction l with
  | nil => rfl
  | cons a l ih => simp [innerStep, Event.iteration?, ih]

theorem iterations_outer (l : List Nat) :
    (l.flatMap outerEvents).filterMap Event.iteration? =
      l.flatMap
        (fun (i : Nat) => (List.range 1000).map
      (fun (j : Nat) => ((i : Int), (j : Int), (i : Int) * (j : Int)))) := by
  induction l with
  | nil => rfl
  | cons a l ih =>
    simp only [List.flatMap_cons, List.filterMap_append, ih, outerEvents, innerEvents,
      List.filterMap_cons, Event.iteration?, iterations_inner, List.filterMap_nil,
      List.append_nil, List.cons_append]

theorem iterations_workEvents : iterations workEvents = expectedIterations := by
  simp only [iterations, workEvents, List.filterMap_cons, Event.iteration?, iterations_outer,
    expectedIterations]

theorem length_nest {α : Type} (f : Nat → Nat → α) (l : List Nat) :
    (l.flatMap (fun i => (List.range 1000).map (f i))).length = l.length * 1000 := by
  induction l with
  | nil => rfl
  | cons a l ih =>
    simp only [List.flatMap_cons, List.length_append, List.length_map, List.length_range, ih,
      List.length_cons]
    ring

theorem length_expectedIterations : expectedIterations.length = 100000000 := by
  unfold expectedIterations
  rw [length_nest, List.length_range]

theorem iterations_callTrace (P : Platform) (clk : Nat → Int) (σ : State) :
    iterations (callTrace P clk σ) = expectedIterations := by
  rw [callTrace_eq, ← iterations_workEvents]
  simp only [iterations, List.filterMap_cons, List.filterMap_append, Event.iteration?,
    List.filterMap_nil, List.append_nil]

theorem countP_isBody (l : List Event) :
    l.countP Event.isBody = (iterations l).length := by
  induction l with
  | nil => rfl
  | cons e l ih =>
    cases e <;> simp [iterations, Event.isBody, Event.iteration?, List.countP_cons] <;>
      simpa [iterations] using ih

theorem iValues_inner (i : Int) (l : List Nat) :
    (l.flatMap (innerStep i)).filterMap Event.iValue? = [] := by
  induction l with
  | nil => rfl
  | cons a l ih => simp [innerStep, Event.iValue?, ih]

theorem iValues_outer (l : List Nat) :
    (l.flatMap outerEvents).filterMap Event.iValue? = l.map (fun (i : Nat) => (i : Int) + 1) := by
  induction l with
  | nil => rfl
  | cons a l ih =>
    simp only [List.flatMap_cons, List.filterMap_append, ih, outerEvents, innerEvents,
      List.filterMap_cons, Event.iValue?, iValues_inner, List.filterMap_nil,
      List.append_nil, List.cons_append, List.nil_append, List.map_cons]

theorem iValues_workEvents :
    iValues workEvents = 0 :: (List.range 100000).map (fun (i : Nat) => (i : Int) + 1) := by
  simp only [iValues, workEvents, List.filterMap_cons, Event.iValue?, iValues_outer]

theorem jValues_inner (i : Int) (l : List Nat) :
    (l.flatMap (innerStep i)).filterMap Event.jValue? = l.map (fun (j : Nat) => (j : Int) + 1) := by
  induction l with
  | nil => rfl
  | cons a l ih => simp [innerStep, Event.jValue?, ih]

theorem jValues_outer (l : List Nat) :
    (l.flatMap outerEvents).filterMap Event.jValue? =
      l.flatMap (fun (_ : Nat) => 0 :: (List.range 1000).map (fun (j : Nat) => (j : Int) + 1)) := by
  induction l with
  | nil => rfl
  | cons a l ih =>
    simp only [List.flatMap_cons, List.filterMap_append, ih, outerEvents, innerEvents,
      List.filterMap_cons, Event.jValue?, jValues_inner, List.filterMap_nil,
      List.append_nil, List.cons_append]

theorem jValues_workEvents :
    jValues workEvents =
      (List.range 100000).flatMap
        (fun (_ : Nat) => 0 :: (List.range 1000).map (fun (j : Nat) => (j : Int) + 1)) := by
  simp only [jValues, workEvents, List.filterMap_cons, Event.jValue?, jValues_outer]

theorem isLocal_inner (i : Int) (l : List Nat) :
    (l.flatMap (innerStep i)).all Event.isLocal = true := by
  induction l with
  | nil => rfl
  | cons a l ih => simp [innerStep, Event.isLocal, ih]

theorem isLocal_outer (l : List Nat) :
    (l.flatMap outerEvents).all Event.isLocal = true := by
  induction l with
  | nil => rfl
  | cons a l ih =>
    simp only [List.flatMap_cons, List.all_append, ih, outerEvents, innerEvents,
      List.all_cons, Event.isLocal, isLocal_inner, List.all_nil, Bool.and_self, List.cons_append]

theorem isLocal_workEvents : workEvents.all Event.isLocal = true := by
  simp only [workEvents, List.all_cons, Event.isLocal, isLocal_outer, Bool.and_self]

theorem countP_of_all_isLocal (p : Event → Bool) (hp : ∀ e, e.isLocal = true → p e = false)
    (l : List Event) (hl : l.all Event.isLocal = true) : l.countP p = 0 := by
  rw [List.countP_eq_zero]
  intro e he
  have h1 : e.isLocal = true := (List.all_eq_true.mp hl) e he
  simp [hp e h1]

theorem countP_isClock_workEvents : workEvents.countP Event.isClock = 0 :=
  countP_of_all_isLocal _ (by intro e; cases e <;> simp [Event.isLocal, Event.isClock]) _
    isLocal_workEvents

theorem countP_isWrite_workEvents : workEvents.countP Event.isWrite = 0 :=
  countP_of_all_isLocal _ (by intro e; cases e <;> simp [Event.isLocal, Event.isWrite]) _
    isLocal_workEvents

theorem countP_isBody_workEvents : workEvents.countP Event.isBody = 100000000 := by
  rw [countP_isBody, iterations_workEvents, length_expectedIterations]

theorem inRange_innerStep (i : Int) (hi0 : 0 ≤ i) (hi1 : i < 100000) (j : Nat) (hj : j < 1000)
    (e : Event) (he : e ∈ innerStep i j) : e.inRange := by
  have hj0 : (0 : Int) ≤ (j : Int) := by omega
  have hj1 : (j : Int) ≤ 999 := by omega
  have hm0 : 0 ≤ i * (j : Int) := mul_nonneg hi0 hj0
  have hm1 : i * (j : Int) ≤ 99999 * 999 :=
    mul_le_mul (by omega) hj1 hj0 (by norm_num)
  simp only [innerStep, List.mem_cons, List.mem_singleton, List.mem_nil_iff, or_false] at he
  rcases he with rfl | rfl
  · refine ⟨hi0, hi1, hj0, by omega, rfl, hm0, by omega, by omega⟩
  · refine ⟨by omega, by omega, by omega⟩

theorem inRange_outerEvents (i : Nat) (hi : i < 100000) (e : Event) (he : e ∈ outerEvents i) :
    e.inRange := by
  simp only [outerEvents, innerEvents, List.cons_append, List.mem_cons, List.mem_append,
    List.mem_flatMap, List.mem_range, List.mem_singleton, List.mem_nil_iff, or_false] at he
  rcases he with rfl | ⟨j, hj, hmem⟩ | rfl
  · exact ⟨by omega, by omega, by omega⟩
  · exact inRange_innerStep (i : Int) (by omega) (by omega) j hj e hmem
  · exact ⟨by omega, by omega, by omega⟩

theorem inRange_workEvents (e : Event) (he : e ∈ workEvents) : e.inRange := by
  simp only [workEvents, List.mem_cons, List.mem_flatMap, List.mem_range] at he
  rcases he with rfl | ⟨i, hi, hmem⟩
  · exact ⟨by omega, by omega, by omega⟩
  · exact inRange_outerEvents i hi e hmem

theorem body_mem_workEvents (i j : Nat) (hi : i < 100000) (hj : j < 1000) :
    Event.body (i : Int) (j : Int) ((i : Int) * (j : Int)) ∈ workEvents := by
  simp only [workEvents, List.mem_cons, List.mem_flatMap, List.mem_range]
  refine Or.inr ⟨i, hi, ?_⟩
  simp only [outerEvents, innerEvents, List.cons_append, List.mem_cons, List.mem_append,
    List.mem_flatMap, List.mem_range]
  refine Or.inr (Or.inl ⟨j, hj, ?_⟩)
  simp [innerStep]

theorem ret_eq (P : Platform) (clk : Nat → Int) (σ : State) :
    (run_benchmark P clk σ).1 =
      ((P.clockSub (clk (σ.ticks + 1)) (clk σ.ticks) : Int) : ℚ) / (P.CLOCKS_PER_SEC : ℚ) := by
  rw [run_benchmark_eq]

theorem state_eq (P : Platform) (clk : Nat → Int) (σ : State) :
    (run_benchmark P clk σ).2 =
      { stdout := σ.stdout, snippet := σ.snippet, ticks := σ.ticks + 2,
        trace := σ.trace ++
          (Event.clock (clk σ.ticks) :: workEvents ++ [Event.clock (clk (σ.ticks + 1))]) } := by
  rw [run_benchmark_eq]

theorem wrapSigned_of_small (bits : Nat) (d : Int) (h0 : 0 ≤ d) (h1 : d < 2 ^ (bits - 1)) :
    wrapSigned bits d = d := by
  unfold wrapSigned
  have hpos : (0 : Int) < 2 ^ (bits - 1) := by positivity
  rw [Int.emod_eq_of_lt (by omega) (by omega)]
  omega

theorem clockSub_nonneg (P : Platform) (a b : Int) (h0 : b ≤ a)
    (h1 : a - b < 2 ^ (P.clockBits - 1)) : 0 ≤ P.clockSub a b := by
  unfold Platform.clockSub
  split
  · rw [wrapSigned_of_small _ _ (by omega) h1]
    omega
  · unfold wrapUnsigned
    exact Int.emod_nonneg _ (by positivity)

theorem clockSub_self (P : Platform) (a : Int) : P.clockSub a a = 0 := by
  unfold Platform.clockSub
  split
  · rw [sub_self, wrapSigned_of_small _ _ (le_refl 0) (by positivity)]
  · simp [wrapUnsigned]

/-! ## The claims -/

/-- C1: for every snippet and every clock, one call of `run_benchmark`
executes the innermost body exactly 100,000,000 times, and the executions are,
in order, those of `i = 0..99999` (outer) and for each `i` of `j = 0..999`
(inner), each storing `x = i * j`. -/
theorem run_benchmark_iterations (P : Platform) (clk : Nat → Int) (σ : State) :
    iterations (callTrace P clk σ) = expectedIterations ∧
      (iterations (callTrace P clk σ)).length = 100000000 ∧
      (callTrace P clk σ).countP Event.isBody = 100000000 := by
  have h := iterations_callTrace P clk σ
  refine ⟨h, ?_, ?_⟩
  · rw [h, length_expectedIterations]
  · rw [countP_isBody, h, length_expectedIterations]

/-- C2: the snippet never influences control flow or the returned value: for
any two snippets `s1`, `s2`, if the two clock readings taken by the two calls
are the same, the calls return the same value, produce the same events (hence
the same loop iterations) and leave the same standard output. -/
theorem run_benchmark_snippet_independent (P : Platform) (clk1 clk2 : Nat → Int) (σ : State)
    (s1 s2 : List Char) (hstart : clk1 σ.ticks = clk2 σ.ticks)
    (hend : clk1 (σ.ticks + 1) = clk2 (σ.ticks + 1)) :
    (run_benchmark P clk1 { σ with snippet := s1 }).1 =
        (run_benchmark P clk2 { σ with snippet := s2 }).1 ∧
      callTrace P clk1 { σ with snippet := s1 } = callTrace P clk2 { σ with snippet := s2 } ∧
      iterations (callTrace P clk1 { σ with snippet := s1 }) =
        iterations (callTrace P clk2 { σ with snippet := s2 }) ∧
      (run_benchmark P clk1 { σ with snippet := s1 }).2.stdout =
        (run_benchmark P clk2 { σ with snippet := s2 }).2.stdout := by
  refine ⟨?_, ?_, ?_, ?_⟩
  · rw [ret_eq, ret_eq]
    simp only [hstart, hend]
  · rw [callTrace_eq, callTrace_eq]
    simp only [hstart, hend]
  · rw [iterations_callTrace, iterations_callTrace]
  · rw [state_eq, state_eq]

/-- Witness of C2: the empty snippet and a long one under the same clock. -/
theorem run_benchmark_snippet_independent_witness :
    (run_benchmark glibc64 sampleClock { emptyState with snippet := [] }).1 =
        (run_benchmark glibc64 sampleClock { emptyState with snippet := longSnippet }).1 ∧
      callTrace glibc64 sampleClock { emptyState with snippet := [] } =
        callTrace glibc64 sampleClock { emptyState with snippet := longSnippet } ∧
      iterations (callTrace glibc64 sampleClock { emptyState with snippet := [] }) =
        iterations (callTrace glibc64 sampleClock { emptyState with snippet := longSnippet }) ∧
      (run_benchmark glibc64 sampleClock { emptyState with snippet := [] }).2.stdout =
        (run_benchmark glibc64 sampleClock { emptyState with snippet := longSnippet }).2.stdout :=
  run_benchmark_snippet_independent glibc64 sampleClock sampleClock emptyState [] longSnippet
    rfl rfl

/-- C3: the value returned is `(end - start) / CLOCKS_PER_SEC` over the
rationals, the difference taken in `clock_t`, where `start` is the clock
reading that opens the call's trace, before the whole workload, and `end` the
reading that closes it. -/
theorem run_benchmark_elapsed (P : Platform) (clk : Nat → Int) (σ : State) :
    ∃ (start_time end_time : Int) (work : List Event),
      callTrace P clk σ = Event.clock start_time :: work ++ [Event.clock end_time] ∧
        work.countP Event.isClock = 0 ∧
        iterations work = expectedIterations ∧
        (run_benchmark P clk σ).1 =
          ((P.clockSub end_time start_time : Int) : ℚ) / (P.CLOCKS_PER_SEC : ℚ) :=
  ⟨clk σ.ticks, clk (σ.ticks + 1), workEvents, callTrace_eq P clk σ,
    countP_isClock_workEvents, iterations_workEvents, ret_eq P clk σ⟩

/-- Counterexample to C4: on a platform with a signed 64-bit `clock_t` and a
million ticks per second, when the first reading is 5 and the second one is
the failure value `(clock_t)(-1)`, `run_benchmark` returns `-6 / 1000000`,
which is negative. -/
theorem run_benchmark_negative :
    glibc64.clockFailure = -1 ∧ failingClock 0 = 5 ∧ failingClock 1 = glibc64.clockFailure ∧
      (run_benchmark glibc64 failingClock emptyState).1 = -6 / 1000000 ∧
      (run_benchmark glibc64 failingClock emptyState).1 < 0 := by
  have h : (run_benchmark glibc64 failingClock emptyState).1 = -6 / 1000000 := by
    rw [ret_eq]
    have hs : glibc64.clockSub (failingClock (emptyState.ticks + 1))
        (failingClock emptyState.ticks) = -6 := by decide
    rw [hs]
    norm_num [glibc64]
  refine ⟨by decide, by decide, by decide, h, ?_⟩
  rw [h]
  norm_num

/-- C4 amended: whenever the end reading is not below the start reading and
their difference is representable in `clock_t` (below `2 ^ (bits - 1)`), the
value `run_benchmark` returns is non-negative. -/
theorem run_benchmark_nonneg (P : Platform) (clk : Nat → Int) (σ : State)
    (hle : clk σ.ticks ≤ clk (σ.ticks + 1))
    (hrep : clk (σ.ticks + 1) - clk σ.ticks < 2 ^ (P.clockBits - 1)) :
    0 ≤ (run_benchmark P clk σ).1 := by
  rw [ret_eq]
  have h := clockSub_nonneg P _ _ hle hrep
  exact div_nonneg (by exact_mod_cast h) (Nat.cast_nonneg _)

/-- Witness of C4 amended: an advancing clock on the 64-bit platform. -/
theorem run_benchmark_nonneg_witness :
    sampleClock emptyState.ticks ≤ sampleClock (emptyState.ticks + 1) ∧
      sampleClock (emptyState.ticks + 1) - sampleClock emptyState.ticks <
        2 ^ (glibc64.clockBits - 1) ∧
      0 ≤ (run_benchmark glibc64 sampleClock emptyState).1 :=
  ⟨by decide, by decide,
    run_benchmark_nonneg glibc64 sampleClock emptyState (by decide) (by decide)⟩

theorem main_unfold (P : Platform) (fmt : ℚ → List Char) (clk : Nat → Int) (σ : State) :
    main P fmt clk σ = (0, printf (mainLine P fmt clk σ) (run_benchmark P clk (mainInput σ)).2) := by
  rfl

theorem getLast?_snoc (l : List Char) (a : Char) : (l ++ [a]).getLast? = some a := by
  simp

theorem count_newline_line (pre mid suf : List Char) (hpre : pre.count '\n' = 0)
    (hmid : '\n' ∉ mid) (hsuf : suf.count '\n' = 1) : (pre ++ mid ++ suf).count '\n' = 1 := by
  rw [List.count_append, List.count_append, hpre, hsuf, List.count_eq_zero.mpr hmid]

/-- C5: `run_benchmark` is total and signals no error: for every snippet and
every clock, the failure value included, the call returns a rational and a
state; the outer counter takes the values 0, 1, ..., 100000 and the inner
counter, in each of the 100000 outer iterations, the values 0, 1, ..., 1000,
each one more than the last and with no other write; and when both readings
are the failure value the call returns 0. -/
theorem run_benchmark_total (P : Platform) (clk : Nat → Int) (σ : State) :
    (∃ (r : ℚ) (σ1 : State), run_benchmark P clk σ = (r, σ1)) ∧
      iValues (callTrace P clk σ) =
        0 :: (List.range 100000).map (fun (i : Nat) => (i : Int) + 1) ∧
      jValues (callTrace P clk σ) =
        (List.range 100000).flatMap
          (fun (_ : Nat) => 0 :: (List.range 1000).map (fun (j : Nat) => (j : Int) + 1)) ∧
      (run_benchmark P (fun _ => P.clockFailure) σ).1 = 0 := by
  refine ⟨⟨_, _, run_benchmark_eq P clk σ⟩, ?_, ?_, ?_⟩
  · rw [callTrace_eq, ← iValues_workEvents]
    simp only [iValues, List.filterMap_cons, List.filterMap_append, Event.iValue?,
      List.filterMap_nil, List.append_nil]
  · rw [callTrace_eq, ← jValues_workEvents]
    simp only [jValues, List.filterMap_cons, List.filterMap_append, Event.jValue?,
      List.filterMap_nil, List.append_nil]
  · rw [ret_eq, clockSub_self]
    simp

/-- C6: the demonstration `main` returns exit status 0 and calls
`run_benchmark` once, with the snippet `dummy code for testing`: its events
are those of that call followed by a single write, the clock is read twice,
and standard output grows by exactly `Execution time: <float> seconds`
and a newline, `<float>` being the conversion of the value the call returned;
when the conversion has no newline of its own this text is one line. -/
theorem main_spec (P : Platform) (fmt : ℚ → List Char) (clk : Nat → Int) (σ : State) :
    (main P fmt clk σ).1 = 0 ∧
      (main P fmt clk σ).2.stdout = σ.stdout ++ mainLine P fmt clk σ ∧
      (main P fmt clk σ).2.trace =
        σ.trace ++ callTrace P clk (mainInput σ) ++ [Event.write (mainLine P fmt clk σ)] ∧
      (callTrace P clk (mainInput σ) ++ [Event.write (mainLine P fmt clk σ)]).countP
        Event.isWrite = 1 ∧
      (main P fmt clk σ).2.ticks = σ.ticks + 2 ∧
      (main P fmt clk σ).2.snippet = "dummy code for testing".toList ∧
      ('\n' ∉ fmt (run_benchmark P clk (mainInput σ)).1 →
        (mainLine P fmt clk σ).count '\n' = 1 ∧
          (mainLine P fmt clk σ).getLast? = some '\n') := by
  refine ⟨rfl, ?_, ?_, ?_, ?_, ?_, ?_⟩
  · rw [main_unfold, state_eq]
    rfl
  · rw [main_unfold, state_eq, callTrace_eq]
    simp only [printf, emit, mainInput, List.append_assoc]
  · rw [callTrace_eq]
    simp only [List.countP_append, List.countP_cons, List.countP_nil, Event.isWrite,
      countP_isWrite_workEvents]
    rfl
  · rw [main_unfold, state_eq]
    rfl
  · rw [main_unfold, state_eq]
    rfl
  · intro h
    refine ⟨count_newline_line _ _ _ (by decide) h (by decide), ?_⟩
    have hl : mainLine P fmt clk σ =
        ("Execution time: ".toList ++ fmt (run_benchmark P clk (mainInput σ)).1 ++
          " seconds".toList) ++ ['\n'] := by
      simp [mainLine]
    rw [hl]
    exact getLast?_snoc _ _

/-- Witness of C6: with the sample conversion and a clock that advances by
250000 ticks of a microsecond, `main` prints `Execution time: 0.250000 seconds`
as one line. -/
theorem main_spec_witness :
    (main glibc64 fmtFixed6 sampleClock emptyState).1 = 0 ∧
      (main glibc64 fmtFixed6 sampleClock emptyState).2.stdout =
        "Execution time: 0.250000 seconds\n".toList ∧
      (mainLine glibc64 fmtFixed6 sampleClock emptyState).count '\n' = 1 := by
  have hr : (run_benchmark glibc64 sampleClock (mainInput emptyState)).1 = 1 / 4 := by
    rw [ret_eq]
    have hs : glibc64.clockSub (sampleClock ((mainInput emptyState).ticks + 1))
        (sampleClock (mainInput emptyState).ticks) = 250000 := by decide
    rw [hs]
    norm_num [glibc64]
  have hf : fmtFixed6 (1 / 4) = "0.250000".toList := by
    have hn : (1 / 4 : ℚ).num = 1 := by norm_num
    have hd : (1 / 4 : ℚ).den = 4 := by norm_num
    have hlt : ¬ ((1 / 4 : ℚ) < 0) := by norm_num
    simp only [fmtFixed6, hn, hd, if_neg hlt]
    decide
  have h := main_spec glibc64 fmtFixed6 sampleClock emptyState
  refine ⟨h.1, ?_, ?_⟩
  · rw [h.2.1, mainLine, hr, hf]
    decide
  · refine (h.2.2.2.2.2.2 ?_).1
    rw [hr, hf]
    decide

/-- C7: `run_benchmark` has no observable side effect: standard output and
the snippet buffer are the same after the call as before it, the call writes
nothing, and between its two clock readings every event only touches the
locals `i`, `j`, `x`. -/
theorem run_benchmark_frame (P : Platform) (clk : Nat → Int) (σ : State) :
    observable (run_benchmark P clk σ).2 = observable σ ∧
      (callTrace P clk σ).countP Event.isWrite = 0 ∧
      ∃ work : List Event,
        callTrace P clk σ =
          Event.clock (clk σ.ticks) :: work ++ [Event.clock (clk (σ.ticks + 1))] ∧
        work.all Event.isLocal = true := by
  refine ⟨?_, ?_, workEvents, callTrace_eq P clk σ, isLocal_workEvents⟩
  · rw [state_eq]
    rfl
  · rw [callTrace_eq]
    simp only [List.countP_append, List.countP_cons, List.countP_nil, Event.isWrite,
      countP_isWrite_workEvents]
    rfl

/-- C8: `run_benchmark` reads the clock exactly twice, and the whole workload
lies between the two readings: the events of a call are the start reading,
then events with no clock reading among them that hold all 100,000,000
iterations, then the end reading. -/
theorem run_benchmark_clock_brackets (P : Platform) (clk : Nat → Int) (σ : State) :
    (run_benchmark P clk σ).2.ticks = σ.ticks + 2 ∧
      (callTrace P clk σ).countP Event.isClock = 2 ∧
      ∃ work : List Event,
        callTrace P clk σ =
          Event.clock (clk σ.ticks) :: work ++ [Event.clock (clk (σ.ticks + 1))] ∧
        work.countP Event.isClock = 0 ∧
        work.countP Event.isBody = 100000000 ∧
        (callTrace P clk σ).countP Event.isBody = 100000000 := by
  refine ⟨?_, ?_, workEvents, callTrace_eq P clk σ, countP_isClock_workEvents,
    countP_isBody_workEvents, ?_⟩
  · rw [state_eq]
  · rw [callTrace_eq]
    simp only [List.countP_append, List.countP_cons, List.countP_nil, Event.isClock,
      countP_isClock_workEvents]
    rfl
  · rw [countP_isBody, iterations_callTrace, length_expectedIterations]

/-- C9: the integer arithmetic of the workload never leaves 32-bit `int`:
every execution of the body in a call has `0 ≤ i < 100000`, `0 ≤ j < 1000`
and stores the exact product `i * j`, which lies between 0 and 99,899,001 and
below `2 ^ 31`; `i` is never assigned more than 100,000 nor `j` more than
1,000. -/
theorem run_benchmark_no_overflow (P : Platform) (clk : Nat → Int) (σ : State) (e : Event)
    (he : e ∈ callTrace P clk σ) : e.inRange := by
  rw [callTrace_eq] at he
  simp only [List.cons_append, List.mem_cons, List.mem_append, List.mem_singleton,
    List.mem_nil_iff, or_false] at he
  rcases he with rfl | he | rfl
  · trivial
  · exact inRange_workEvents e he
  · trivial

/-- Witness of C9: the last iteration, `i = 99999`, `j = 999`, stores
`99899001 = 99999 * 999`, the largest product. -/
theorem run_benchmark_no_overflow_witness :
    Event.body 99999 999 99899001 ∈ callTrace glibc64 sampleClock emptyState ∧
      (Event.body 99999 999 99899001).inRange := by
  have hmem : Event.body 99999 999 99899001 ∈ callTrace glibc64 sampleClock emptyState := by
    rw [callTrace_eq]
    have h := body_mem_workEvents 99999 999 (by decide) (by decide)
    norm_num at h
    simp [h]
  exact ⟨hmem, run_benchmark_no_overflow glibc64 sampleClock emptyState _ hmem⟩

end PerformanceModule
